import Mathlib

/-!
Verification of the s3copy repository's core algorithms against its
natural-language specification.

The Go sources are shallowly embedded: byte streams become `List Nat`
(each element a byte value), machine integers become `Nat`/`Int` with
explicit wrap-around where it matters, fallible operations return
`Except`/`Option`, and the file system / object store are explicit
state values threaded through the step functions.

External library primitives called by the code (the ChaCha20-Poly1305
AEAD from `golang.org/x/crypto/chacha20poly1305` and the Argon2id KDF)
are not code of this repository; they enter the embedding as explicit
function parameters, with the library's documented contract stated as a
hypothesis where a claim needs it.
-/

namespace S3Copy

/-! ## Byte-level utilities (encoding/binary big-endian) -/

/-- Big-endian encoding of `n` into `w` bytes, as in
`binary.BigEndian.PutUint32` / `PutUint64`: the value is taken modulo
`2^(8*w)`. -/
def toBytesBE : Nat → Nat → List Nat
  | 0, _ => []
  | w + 1, n => toBytesBE w (n / 256) ++ [n % 256]

/-- Big-endian decoding, as in `binary.BigEndian.Uint32`. -/
def fromBytesBE (l : List Nat) : Nat :=
  l.foldl (fun acc b => acc * 256 + b) 0

theorem toBytesBE_length (w n : Nat) : (toBytesBE w n).length = w := by
  induction w generalizing n with
  | zero => rfl
  | succ w ih => simp [toBytesBE, ih]

theorem fromBytesBE_append_singleton (l : List Nat) (b : Nat) :
    fromBytesBE (l ++ [b]) = fromBytesBE l * 256 + b := by
  simp [fromBytesBE]

theorem fromBytesBE_toBytesBE (w n : Nat) :
    fromBytesBE (toBytesBE w n) = n % 256 ^ w := by
  induction w generalizing n with
  | zero => simp [toBytesBE, fromBytesBE, Nat.mod_one]
  | succ w ih =>
    rw [toBytesBE, fromBytesBE_append_singleton, ih]
    rw [pow_succ, Nat.mul_comm (256 ^ w) 256, Nat.mod_mul]
    ring

theorem fromBytesBE_toBytesBE_of_lt {w n : Nat} (h : n < 256 ^ w) :
    fromBytesBE (toBytesBE w n) = n := by
  rw [fromBytesBE_toBytesBE, Nat.mod_eq_of_lt h]

/-! ## Chunked streaming encryption codec

Embedding of `encryptStream` and `decryptStreamFromReader` (and the
`NonceManager`) from the Go source. The AEAD cipher and the KDF are
external library collaborators, passed in as explicit functions. -/

/-- Abstract interface of the AEAD cipher (`chacha20poly1305`):
`Seal key nonce plaintext` and `Open key nonce ciphertext`. -/
structure AEAD where
  Seal : List Nat → List Nat → List Nat → List Nat
  Open : List Nat → List Nat → List Nat → Option (List Nat)

/-- Documented contract of the library AEAD: opening a sealed chunk with
the same key and nonce recovers the plaintext, and the sealed form of a
chunk of at most 1 MiB fits the 32-bit length field. -/
structure AEADCorrect (a : AEAD) : Prop where
  open_seal : ∀ key nonce pt, a.Open key nonce (a.Seal key nonce pt) = some pt
  seal_length_lt : ∀ key nonce pt, pt.length ≤ 1024 * 1024 →
    (a.Seal key nonce pt).length < 2 ^ 32

/-- Fixed 1 MiB read size used by `encryptStream` (`buf := make([]byte, 1024*1024)`). -/
def chunkSize : Nat := 1024 * 1024

/-- Embedding of `NonceManager.NextNonce`: the 12-byte nonce is the base
nonce with its low 8 bytes (`nonce[NonceSize-8:]`) overwritten by the
big-endian 64-bit counter. -/
def nextNonce (baseNonce : List Nat) (counter : Nat) : List Nat :=
  baseNonce.take 4 ++ toBytesBE 8 counter

/-- Embedding of the read/seal/write loop of `encryptStream`: for each
non-empty read of up to 1 MiB, emit the 4-byte big-endian length of the
sealed chunk followed by the sealed chunk, then increment the counter.
A zero-length final read (empty remaining input) emits nothing. -/
def encryptLoop (a : AEAD) (key baseNonce : List Nat) (ctr : Nat) (plain : List Nat) :
    List Nat :=
  if hp : plain = [] then []
  else
    let sealed := a.Seal key (nextNonce baseNonce ctr) (plain.take chunkSize)
    toBytesBE 4 sealed.length ++ (sealed ++ encryptLoop a key baseNonce (ctr + 1) (plain.drop chunkSize))
termination_by plain.length
decreasing_by
  rw [List.length_drop]
  have : 0 < plain.length := List.length_pos.mpr hp
  have : 0 < chunkSize := by norm_num [chunkSize]
  omega

/-- Embedding of `encryptStream`: emit the 32-byte salt and the 12-byte
base nonce, derive the key via the KDF, then run the chunk loop with the
counter starting at 0. The random salt and base nonce are inputs here. -/
def encryptStream (a : AEAD) (kdf : List Nat → List Nat → List Nat)
    (password salt baseNonce plain : List Nat) : List Nat :=
  salt ++ (baseNonce ++ encryptLoop a (kdf password salt) baseNonce 0 plain)

/-- Embedding of the chunk-reading loop of `decryptStreamFromReader`:
zero bytes remaining at a length prefix is clean end-of-stream; a short
read of the prefix or of the announced chunk is fatal; an AEAD failure
aborts; otherwise the plaintext is emitted and the counter advances. -/
def decryptLoop (a : AEAD) (key baseNonce : List Nat) (ctr : Nat) (cs : List Nat) :
    Except String (List Nat) :=
  if hcs : cs = [] then .ok []
  else if h4 : cs.length < 4 then .error "failed to read chunk size"
  else
    let n := fromBytesBE (cs.take 4)
    let rest := cs.drop 4
    if hn : rest.length < n then .error "failed to read encrypted chunk"
    else
      match a.Open key (nextNonce baseNonce ctr) (rest.take n) with
      | none => .error "decryption failed (wrong password or corrupted data?)"
      | some pt => (decryptLoop a key baseNonce (ctr + 1) (rest.drop n)).map (fun t => pt ++ t)
termination_by cs.length
decreasing_by
  simp only [List.length_drop]
  have : 0 < cs.length := List.length_pos.mpr hcs
  omega

/-- Embedding of `decryptStreamFromReader`: read exactly 44 header bytes
(32-byte salt then 12-byte base nonce; a short read is fatal), re-derive
the key, and run the chunk loop with the counter restarted at 0. -/
def decryptStream (a : AEAD) (kdf : List Nat → List Nat → List Nat)
    (password cipher : List Nat) : Except String (List Nat) :=
  if cipher.length < 44 then .error "failed to read encryption header"
  else
    let salt := cipher.take 32
    let baseNonce := (cipher.drop 32).take 12
    decryptLoop a (kdf password salt) baseNonce 0 (cipher.drop 44)

theorem decryptLoop_encryptLoop (a : AEAD) (hc : AEADCorrect a) (key baseNonce : List Nat) :
    ∀ N plain ctr, plain.length ≤ N →
      decryptLoop a key baseNonce ctr (encryptLoop a key baseNonce ctr plain) = .ok plain := by
  intro N
  induction N with
  | zero =>
    intro plain ctr h
    have hp : plain = [] := List.length_eq_zero.mp (Nat.le_zero.mp h)
    subst hp
    rw [encryptLoop, decryptLoop]
    simp
  | succ N ih =>
    intro plain ctr h
    by_cases hp : plain = []
    · subst hp
      rw [encryptLoop, decryptLoop]
      simp
    · rw [encryptLoop, dif_neg hp]
      set c := plain.take chunkSize with hc_def
      set sealed := a.Seal key (nextNonce baseNonce ctr) c with hsealed_def
      set tail := encryptLoop a key baseNonce (ctr + 1) (plain.drop chunkSize) with htail_def
      have hclen : c.length ≤ chunkSize := by
        rw [hc_def, List.length_take]; exact Nat.min_le_left _ _
      have hslen : sealed.length < 2 ^ 32 := hc.seal_length_lt key _ c hclen
      have hpfx_len : (toBytesBE 4 sealed.length).length = 4 := toBytesBE_length 4 _
      rw [decryptLoop]
      have henc_ne : toBytesBE 4 sealed.length ++ (sealed ++ tail) ≠ [] := by
        intro hfalse
        have := congrArg List.length hfalse
        simp [hpfx_len] at this
      rw [dif_neg henc_ne]
      have hlen4 : ¬ (toBytesBE 4 sealed.length ++ (sealed ++ tail)).length < 4 := by
        simp [hpfx_len]
      rw [dif_neg hlen4]
      have htake4 : (toBytesBE 4 sealed.length ++ (sealed ++ tail)).take 4 = toBytesBE 4 sealed.length :=
        List.take_left' hpfx_len
      have hdrop4 : (toBytesBE 4 sealed.length ++ (sealed ++ tail)).drop 4 = sealed ++ tail :=
        List.drop_left' hpfx_len
      rw [htake4, hdrop4]
      have hfrom : fromBytesBE (toBytesBE 4 sealed.length) = sealed.length := by
        apply fromBytesBE_toBytesBE_of_lt
        calc sealed.length < 2 ^ 32 := hslen
        _ = 256 ^ 4 := by norm_num
      rw [hfrom]
      have hrest_len : ¬ (sealed ++ tail).length < sealed.length := by
        simp
      rw [dif_neg hrest_len]
      have htake_sealed : (sealed ++ tail).take sealed.length = sealed := List.take_left' rfl
      have hdrop_sealed : (sealed ++ tail).drop sealed.length = tail := List.drop_left' rfl
      rw [htake_sealed, hdrop_sealed, hsealed_def, hc.open_seal]
      have hrec : decryptLoop a key baseNonce (ctr + 1) tail = .ok (plain.drop chunkSize) := by
        rw [htail_def]
        apply ih
        rw [List.length_drop]
        have h1 : 0 < plain.length := List.length_pos.mpr hp
        have h2 : 0 < chunkSize := by norm_num [chunkSize]
        omega
      rw [hrec]
      simp [hc_def, Except.map]

/-- C1: for every passphrase and every plaintext byte string, decrypting
the stream produced by `encryptStream` with the same passphrase yields
exactly the original plaintext, given the AEAD library contract and the
generated 32-byte salt and 12-byte base nonce. -/
theorem decrypt_encrypt_roundtrip (a : AEAD) (kdf : List Nat → List Nat → List Nat)
    (hc : AEADCorrect a) (password salt baseNonce plain : List Nat)
    (hsalt : salt.length = 32) (hbase : baseNonce.length = 12) :
    decryptStream a kdf password (encryptStream a kdf password salt baseNonce plain) = .ok plain := by
  unfold decryptStream encryptStream
  have hhd : salt ++ (baseNonce ++ encryptLoop a (kdf password salt) baseNonce 0 plain)
      = (salt ++ baseNonce) ++ encryptLoop a (kdf password salt) baseNonce 0 plain := by
    simp [List.append_assoc]
  have hhd_len : (salt ++ baseNonce).length = 44 := by simp [hsalt, hbase]
  have hlen : ¬ (salt ++ (baseNonce ++ encryptLoop a (kdf password salt) baseNonce 0 plain)).length < 44 := by
    rw [hhd, List.length_append, hhd_len]
    omega
  rw [if_neg hlen]
  have htake32 : (salt ++ (baseNonce ++ encryptLoop a (kdf password salt) baseNonce 0 plain)).take 32 = salt :=
    List.take_left' hsalt
  have hdrop32 : (salt ++ (baseNonce ++ encryptLoop a (kdf password salt) baseNonce 0 plain)).drop 32
      = baseNonce ++ encryptLoop a (kdf password salt) baseNonce 0 plain :=
    List.drop_left' hsalt
  have htake12 : (baseNonce ++ encryptLoop a (kdf password salt) baseNonce 0 plain).take 12 = baseNonce :=
    List.take_left' hbase
  have hdrop44 : (salt ++ (baseNonce ++ encryptLoop a (kdf password salt) baseNonce 0 plain)).drop 44
      = encryptLoop a (kdf password salt) baseNonce 0 plain := by
    rw [hhd]
    exact List.drop_left' hhd_len
  rw [htake32, hdrop32, htake12, hdrop44]
  exact decryptLoop_encryptLoop a hc _ _ plain.length plain 0 le_rfl

/-- Concrete AEAD model used for witnesses: sealing appends a 16-byte
tag, opening strips it. It satisfies the library contract. -/
def demoAEAD : AEAD where
  Seal := fun _ _ pt => pt ++ List.replicate 16 0
  Open := fun _ _ ct => if ct.length < 16 then none else some (ct.take (ct.length - 16))

theorem demoAEAD_correct : AEADCorrect demoAEAD := by
  constructor
  · intro key nonce pt
    simp [demoAEAD]
  · intro key nonce pt h
    simp only [demoAEAD, List.length_append, List.length_replicate]
    omega

/-- Concrete KDF model used for witnesses. -/
def demoKdf (password salt : List Nat) : List Nat :=
  password ++ salt

theorem decrypt_encrypt_roundtrip_witness :
    AEADCorrect demoAEAD ∧ (List.replicate 32 1).length = 32 ∧ (List.replicate 12 2).length = 12 ∧
      decryptStream demoAEAD demoKdf [7, 8] (encryptStream demoAEAD demoKdf [7, 8]
        (List.replicate 32 1) (List.replicate 12 2) [10, 20, 30]) = .ok [10, 20, 30] :=
  ⟨demoAEAD_correct, by simp, by simp,
    decrypt_encrypt_roundtrip demoAEAD demoKdf demoAEAD_correct [7, 8]
      (List.replicate 32 1) (List.replicate 12 2) [10, 20, 30] (by simp) (by simp)⟩

/-! ## Stream format (claim C7) -/

/-- The sequence of maximal 1 MiB pieces produced by the fixed-size read
loop of `encryptStream` over a byte list. -/
def chunksOf1M (plain : List Nat) : List (List Nat) :=
  if hp : plain = [] then []
  else plain.take chunkSize :: chunksOf1M (plain.drop chunkSize)
termination_by plain.length
decreasing_by
  rw [List.length_drop]
  have : 0 < plain.length := List.length_pos.mpr hp
  have : 0 < chunkSize := by norm_num [chunkSize]
  omega

/-- Specification-level description of one emitted chunk record: a
4-byte big-endian length prefixed to the AEAD-sealed chunk, whose nonce
is the base nonce with its low 8 bytes overwritten by the big-endian
64-bit chunk counter `i`. -/
def chunkRecord (a : AEAD) (key baseNonce : List Nat) (i : Nat) (c : List Nat) : List Nat :=
  toBytesBE 4 (a.Seal key (nextNonce baseNonce i) c).length
    ++ a.Seal key (nextNonce baseNonce i) c

theorem chunksOf1M_join_aux :
    ∀ N plain, plain.length ≤ N → (chunksOf1M plain).flatten = plain := by
  intro N
  induction N with
  | zero =>
    intro plain h
    have hp : plain = [] := List.length_eq_zero.mp (Nat.le_zero.mp h)
    subst hp; rw [chunksOf1M]; simp
  | succ N ih =>
    intro plain h
    by_cases hp : plain = []
    · subst hp; rw [chunksOf1M]; simp
    · rw [chunksOf1M, dif_neg hp]
      have hlt : (plain.drop chunkSize).length ≤ N := by
        rw [List.length_drop]
        have : 0 < plain.length := List.length_pos.mpr hp
        have : 0 < chunkSize := by norm_num [chunkSize]
        omega
      simp only [List.flatten_cons]
      rw [ih _ hlt, List.take_append_drop]

theorem chunksOf1M_join (plain : List Nat) : (chunksOf1M plain).flatten = plain :=
  chunksOf1M_join_aux plain.length plain le_rfl

theorem chunksOf1M_mem_aux :
    ∀ N plain (c : List Nat), plain.length ≤ N → c ∈ chunksOf1M plain →
      c ≠ [] ∧ c.length ≤ chunkSize := by
  intro N
  induction N with
  | zero =>
    intro plain c h hmem
    have hp : plain = [] := List.length_eq_zero.mp (Nat.le_zero.mp h)
    subst hp; rw [chunksOf1M] at hmem; simp at hmem
  | succ N ih =>
    intro plain c h hmem
    by_cases hp : plain = []
    · subst hp; rw [chunksOf1M] at hmem; simp at hmem
    · rw [chunksOf1M, dif_neg hp] at hmem
      rcases List.mem_cons.mp hmem with hc | hc
      · subst hc
        constructor
        · have h1 : 0 < plain.length := List.length_pos.mpr hp
          have h2 : 0 < chunkSize := by norm_num [chunkSize]
          intro hfalse
          have := congrArg List.length hfalse
          rw [List.length_take] at this
          simp only [List.length_nil] at this
          omega
        · rw [List.length_take]; exact Nat.min_le_left _ _
      · have hlt : (plain.drop chunkSize).length ≤ N := by
          rw [List.length_drop]
          have : 0 < plain.length := List.length_pos.mpr hp
          have : 0 < chunkSize := by norm_num [chunkSize]
          omega
        exact ih _ _ hlt hc

theorem chunksOf1M_mem {plain c : List Nat} (hmem : c ∈ chunksOf1M plain) :
    c ≠ [] ∧ c.length ≤ chunkSize :=
  chunksOf1M_mem_aux plain.length plain c le_rfl hmem

theorem encryptLoop_eq_records (a : AEAD) (key baseNonce : List Nat) :
    ∀ N plain ctr, plain.length ≤ N →
      encryptLoop a key baseNonce ctr plain
        = ((chunksOf1M plain).mapIdx (fun i c => chunkRecord a key baseNonce (ctr + i) c)).flatten := by
  intro N
  induction N with
  | zero =>
    intro plain ctr h
    have hp : plain = [] := List.length_eq_zero.mp (Nat.le_zero.mp h)
    subst hp
    rw [encryptLoop, chunksOf1M]
    simp
  | succ N ih =>
    intro plain ctr h
    by_cases hp : plain = []
    · subst hp
      rw [encryptLoop, chunksOf1M]
      simp
    · rw [encryptLoop, dif_neg hp, chunksOf1M, dif_neg hp]
      rw [List.mapIdx_cons]
      simp only [List.flatten_cons]
      have hlend : (plain.drop chunkSize).length ≤ N := by
        rw [List.length_drop]
        have : 0 < plain.length := List.length_pos.mpr hp
        have : 0 < chunkSize := by norm_num [chunkSize]
        omega
      rw [ih _ (ctr + 1) hlend]
      have hfe : (fun i c => chunkRecord a key baseNonce (ctr + (i + 1)) c)
          = (fun i c => chunkRecord a key baseNonce (ctr + 1 + i) c) := by
        funext i c
        rw [show ctr + (i + 1) = ctr + 1 + i from by omega]
      rw [hfe]
      simp [chunkRecord, List.append_assoc]

/-- C7: the encrypt operation emits exactly the 44-byte header (32-byte
salt then 12-byte base nonce) followed by, for each non-empty chunk of
the fixed 1 MiB read loop, a 4-byte big-endian length prefix and the
AEAD-sealed chunk whose nonce carries the big-endian 64-bit counter
starting at 0 in the low 8 bytes of the base nonce; the chunks are
non-empty, at most 1 MiB each, and concatenate back to the plaintext,
and empty input yields the header alone. -/
theorem encryptStream_format (a : AEAD) (kdf : List Nat → List Nat → List Nat)
    (password salt baseNonce plain : List Nat)
    (hsalt : salt.length = 32) (hbase : baseNonce.length = 12) :
    encryptStream a kdf password salt baseNonce plain
      = (salt ++ baseNonce)
        ++ ((chunksOf1M plain).mapIdx
              (fun i c => chunkRecord a (kdf password salt) baseNonce i c)).flatten
    ∧ (salt ++ baseNonce).length = 44
    ∧ (chunksOf1M plain).flatten = plain
    ∧ (∀ c ∈ chunksOf1M plain, c ≠ [] ∧ c.length ≤ 1024 * 1024)
    ∧ encryptStream a kdf password salt baseNonce [] = salt ++ baseNonce := by
  refine ⟨?_, ?_, ?_, ?_, ?_⟩
  · rw [encryptStream, encryptLoop_eq_records a _ baseNonce plain.length plain 0 le_rfl]
    simp
  · simp [hsalt, hbase]
  · exact chunksOf1M_join plain
  · intro c hc
    exact chunksOf1M_mem hc
  · rw [encryptStream, encryptLoop]
    simp

theorem encryptStream_format_witness :
    (List.replicate 32 1).length = 32 ∧ (List.replicate 12 2).length = 12 ∧
      (encryptStream demoAEAD demoKdf [7] (List.replicate 32 1) (List.replicate 12 2) [5]
        = (List.replicate 32 1 ++ List.replicate 12 2)
          ++ ((chunksOf1M [5]).mapIdx
                (fun i c => chunkRecord demoAEAD (demoKdf [7] (List.replicate 32 1)) (List.replicate 12 2) i c)).flatten
      ∧ (List.replicate 32 1 ++ List.replicate 12 2).length = 44
      ∧ (chunksOf1M [5]).flatten = [5]
      ∧ (∀ c ∈ chunksOf1M [5], c ≠ [] ∧ c.length ≤ 1024 * 1024)
      ∧ encryptStream demoAEAD demoKdf [7] (List.replicate 32 1) (List.replicate 12 2) [] =
          List.replicate 32 1 ++ List.replicate 12 2) :=
  ⟨by simp, by simp,
    encryptStream_format demoAEAD demoKdf [7] (List.replicate 32 1) (List.replicate 12 2) [5]
      (by simp) (by simp)⟩

/-! ## Effectful encryption and abort behaviour (claim C8) -/

/-- Environment for the effectful reader/writer of `encryptStream`:
`writeOk k` tells whether the k-th `Write` call succeeds (a failing call
emits nothing and returns an error), `readOk j` tells whether the j-th
`Read` call succeeds (a failing read returns no bytes and a non-EOF
error). -/
structure StreamEnv where
  writeOk : Nat → Bool
  readOk : Nat → Bool

/-- Effectful embedding of the `encryptStream` loop: each iteration
reads, seals, writes the 4-byte length, writes the sealed chunk; any
failing read or write returns its error immediately. The first component
is the byte sequence actually emitted to the output writer. -/
def encryptLoopFS (a : AEAD) (key baseNonce : List Nat) (env : StreamEnv)
    (ctr widx ridx : Nat) (plain : List Nat) : List Nat × Except String Unit :=
  if env.readOk ridx = false then ([], .error "failed to read from source")
  else if hp : plain = [] then ([], .ok ())
  else
    let sealed := a.Seal key (nextNonce baseNonce ctr) (plain.take chunkSize)
    if env.writeOk widx = false then ([], .error "failed to write chunk size")
    else if env.writeOk (widx + 1) = false then
      (toBytesBE 4 sealed.length, .error "failed to write encrypted chunk")
    else
      let next := encryptLoopFS a key baseNonce env (ctr + 1) (widx + 2) (ridx + 1) (plain.drop chunkSize)
      (toBytesBE 4 sealed.length ++ (sealed ++ next.1), next.2)
termination_by plain.length
decreasing_by
  rw [List.length_drop]
  have : 0 < plain.length := List.length_pos.mpr hp
  have : 0 < chunkSize := by norm_num [chunkSize]
  omega

/-- Effectful embedding of `encryptStream`: write the salt (call 0) and
the base nonce (call 1), then run the loop with write calls numbered
from 2 and read calls from 0. -/
def encryptStreamFS (a : AEAD) (kdf : List Nat → List Nat → List Nat)
    (password salt baseNonce plain : List Nat) (env : StreamEnv) :
    List Nat × Except String Unit :=
  if env.writeOk 0 = false then ([], .error "failed to write salt")
  else if env.writeOk 1 = false then (salt, .error "failed to write base nonce")
  else
    let next := encryptLoopFS a (kdf password salt) baseNonce env 0 2 0 plain
    (salt ++ (baseNonce ++ next.1), next.2)

/-- A byte list consists of complete chunk records: a sequence of 4-byte
big-endian length fields each followed by that many bytes. -/
def completeRecords (l : List Nat) : Bool :=
  if hl : l = [] then true
  else if l.length < 4 then false
  else if (l.drop 4).length < fromBytesBE (l.take 4) then false
  else completeRecords ((l.drop 4).drop (fromBytesBE (l.take 4)))
termination_by l.length
decreasing_by
  simp only [List.length_drop]
  have : 0 < l.length := List.length_pos.mpr hl
  omega

/-- Environment in which every read and write succeeds. -/
def allOkEnv : StreamEnv where
  writeOk := fun _ => true
  readOk := fun _ => true

/-- Environment in which the very first sealed-chunk write (overall
write call 3) fails, everything before it succeeding. -/
def chunkWriteFailEnv : StreamEnv where
  writeOk := fun k => decide (k < 3)
  readOk := fun _ => true

/-- C8 counterexample: with the first sealed-chunk write failing after
its length prefix was written, `encryptStream` aborts with an error but
the emitted output ends with a dangling 4-byte length prefix, not at a
record boundary. -/
theorem encrypt_partial_record_counterexample :
    (encryptStreamFS demoAEAD demoKdf [7] (List.replicate 32 1) (List.replicate 12 2) [5]
        chunkWriteFailEnv).2 = .error "failed to write encrypted chunk"
    ∧ completeRecords ((encryptStreamFS demoAEAD demoKdf [7] (List.replicate 32 1)
        (List.replicate 12 2) [5] chunkWriteFailEnv).1.drop 44) = false := by
  have henc : encryptStreamFS demoAEAD demoKdf [7] (List.replicate 32 1) (List.replicate 12 2) [5]
      chunkWriteFailEnv
      = (List.replicate 32 1 ++ (List.replicate 12 2 ++ toBytesBE 4 17),
         .error "failed to write encrypted chunk") := by
    rw [encryptStreamFS, encryptLoopFS]
    norm_num [chunkWriteFailEnv, demoAEAD, toBytesBE, chunkSize]
  rw [henc]
  have hbytes : toBytesBE 4 17 = [0, 0, 0, 17] := by norm_num [toBytesBE]
  constructor
  · rfl
  · have hdrop : (List.replicate 32 1 ++ (List.replicate 12 2 ++ toBytesBE 4 17)).drop 44
        = toBytesBE 4 17 := by
      rw [show (List.replicate 32 (1 : Nat) ++ (List.replicate 12 2 ++ toBytesBE 4 17))
            = (List.replicate 32 1 ++ List.replicate 12 2) ++ toBytesBE 4 17 from by
          simp [List.append_assoc]]
      apply List.drop_left'
      simp
    rw [hdrop, hbytes, completeRecords]
    norm_num [fromBytesBE]
    decide

theorem encryptLoopFS_initial_segment (a : AEAD) (key baseNonce : List Nat) (env : StreamEnv) :
    ∀ N plain ctr widx ridx, plain.length ≤ N →
      ∃ rest, encryptLoop a key baseNonce ctr plain
        = (encryptLoopFS a key baseNonce env ctr widx ridx plain).1 ++ rest := by
  intro N
  induction N with
  | zero =>
    intro plain ctr widx ridx h
    have hp : plain = [] := List.length_eq_zero.mp (Nat.le_zero.mp h)
    subst hp
    rw [encryptLoop, encryptLoopFS]
    by_cases hr : env.readOk ridx = false <;> simp [hr]
  | succ N ih =>
    intro plain ctr widx ridx h
    by_cases hp : plain = []
    · subst hp
      rw [encryptLoop, encryptLoopFS]
      by_cases hr : env.readOk ridx = false <;> simp [hr]
    · rw [encryptLoop, dif_neg hp, encryptLoopFS]
      by_cases hr : env.readOk ridx = false
      · simp [hr]
      · rw [if_neg hr, dif_neg hp]
        by_cases hw0 : env.writeOk widx = false
        · simp [hw0]
        · rw [if_neg hw0]
          by_cases hw1 : env.writeOk (widx + 1) = false
          · rw [if_pos hw1]
            exact ⟨_, rfl⟩
          · rw [if_neg hw1]
            have hlend : (plain.drop chunkSize).length ≤ N := by
              rw [List.length_drop]
              have : 0 < plain.length := List.length_pos.mpr hp
              have : 0 < chunkSize := by norm_num [chunkSize]
              omega
            obtain ⟨rest, hrest⟩ := ih (plain.drop chunkSize) (ctr + 1) (widx + 2) (ridx + 1) hlend
            refine ⟨rest, ?_⟩
            simp only []
            rw [hrest]
            simp [List.append_assoc]

theorem allOkEnv_writeOk (k : Nat) : allOkEnv.writeOk k = true := rfl

theorem allOkEnv_readOk (k : Nat) : allOkEnv.readOk k = true := rfl

theorem encryptLoopFS_allOk (a : AEAD) (key baseNonce : List Nat) :
    ∀ N plain ctr widx ridx, plain.length ≤ N →
      encryptLoopFS a key baseNonce allOkEnv ctr widx ridx plain
        = (encryptLoop a key baseNonce ctr plain, .ok ()) := by
  intro N
  induction N with
  | zero =>
    intro plain ctr widx ridx h
    have hp : plain = [] := List.length_eq_zero.mp (Nat.le_zero.mp h)
    subst hp
    rw [encryptLoop, encryptLoopFS]
    simp [allOkEnv_readOk]
  | succ N ih =>
    intro plain ctr widx ridx h
    by_cases hp : plain = []
    · subst hp
      rw [encryptLoop, encryptLoopFS]
      simp [allOkEnv_readOk]
    · rw [encryptLoop, dif_neg hp, encryptLoopFS]
      have hlend : (plain.drop chunkSize).length ≤ N := by
        rw [List.length_drop]
        have : 0 < plain.length := List.length_pos.mpr hp
        have : 0 < chunkSize := by norm_num [chunkSize]
        omega
      rw [if_neg (by simp [allOkEnv_readOk])]
      rw [dif_neg hp]
      rw [if_neg (by simp [allOkEnv_writeOk])]
      rw [if_neg (by simp [allOkEnv_writeOk])]
      rw [ih (plain.drop chunkSize) (ctr + 1) (widx + 2) (ridx + 1) hlend]

/-- C8 (amended): a read or write failure aborts encryption immediately
with an error and nothing more is emitted, so the emitted bytes are
always an initial segment of the full encrypted stream, and exactly the
full stream with a success result when every read and write succeeds.
However the output need not end at a record boundary: a failed
sealed-chunk write leaves its already-written 4-byte length prefix
dangling at the end of the output. -/
theorem encryptStreamFS_initial_segment (a : AEAD) (kdf : List Nat → List Nat → List Nat)
    (password salt baseNonce plain : List Nat) (env : StreamEnv) :
    (∃ rest, encryptStream a kdf password salt baseNonce plain
        = (encryptStreamFS a kdf password salt baseNonce plain env).1 ++ rest)
    ∧ encryptStreamFS a kdf password salt baseNonce plain allOkEnv
        = (encryptStream a kdf password salt baseNonce plain, .ok ()) := by
  constructor
  · rw [encryptStream, encryptStreamFS]
    by_cases hw0 : env.writeOk 0 = false
    · simp [hw0]
    · rw [if_neg hw0]
      by_cases hw1 : env.writeOk 1 = false
      · simp [hw1]
      · rw [if_neg hw1]
        obtain ⟨rest, hrest⟩ :=
          encryptLoopFS_initial_segment a (kdf password salt) baseNonce env
            plain.length plain 0 2 0 le_rfl
        refine ⟨rest, ?_⟩
        simp only []
        rw [hrest]
        simp [List.append_assoc]
  · rw [encryptStream, encryptStreamFS]
    rw [if_neg (by simp [allOkEnv_writeOk])]
    rw [if_neg (by simp [allOkEnv_writeOk])]
    rw [encryptLoopFS_allOk a (kdf password salt) baseNonce plain.length plain 0 2 0 le_rfl]

/-! ## File records and the change-detection oracle (claims C5, C6)

Embedding of `FileInfo`, `filesAreSameWithMetadataCheck`,
`filesAreSameWithMtimeCheck`, `shouldUseChecksumCompare` and
`filesAreSameByMode` from the sync source. The lazy `HeadObject` call is
modelled by its outcome: `none` when the call fails or the object has no
metadata, `some md` for a metadata association list. -/

structure FileInfo where
  Path : String
  Size : Int
  MD5Hash : String
  ModTime : Int
  IsDir : Bool
  RelPath : String
deriving DecidableEq

/-- Embedding of `filesAreSameWithMetadataCheck`: sizes must match; a
matching list digest (ETag) is SAME; otherwise consult the object's
`local-md5` metadata if the head call yields any, else fall back to the
(already failed) digest comparison. -/
def filesAreSameWithMetadataCheck (head : Option (List (String × String)))
    (localFile s3File : FileInfo) : Bool :=
  if localFile.Size ≠ s3File.Size then false
  else if localFile.MD5Hash = s3File.MD5Hash then true
  else
    match head with
    | some md =>
      match md.lookup "local-md5" with
      | some storedMD5 => localFile.MD5Hash = storedMD5
      | none => localFile.MD5Hash = s3File.MD5Hash
    | none => localFile.MD5Hash = s3File.MD5Hash

/-- Model of `strconv.ParseInt(s, 10, 64)`: optional sign, at least one
digit, decimal digits only, result within the signed 64-bit range. -/
def digitsToNat (cs : List Char) : Option Nat :=
  cs.foldl
    (fun acc c =>
      match acc with
      | none => none
      | some n => if c.isDigit then some (n * 10 + (c.toNat - 48)) else none)
    (some 0)

def parseInt64 (s : String) : Option Int :=
  match s.toList with
  | [] => none
  | '-' :: digits =>
    if digits = [] then none
    else
      match digitsToNat digits with
      | none => none
      | some n => if (n : Int) ≤ 2 ^ 63 then some (-(n : Int)) else none
  | '+' :: digits =>
    if digits = [] then none
    else
      match digitsToNat digits with
      | none => none
      | some n => if (n : Int) < 2 ^ 63 then some (n : Int) else none
  | digits =>
    match digitsToNat digits with
    | none => none
    | some n => if (n : Int) < 2 ^ 63 then some (n : Int) else none

/-- Embedding of `filesAreSameWithMtimeCheck`: sizes must match; with
both modification times known (positive) an absolute difference of at
most one second is SAME; otherwise the `local-mtime` metadata field must
parse and equal the local modification time exactly. -/
def filesAreSameWithMtimeCheck (head : Option (List (String × String)))
    (localFile s3File : FileInfo) : Bool :=
  if localFile.Size ≠ s3File.Size then false
  else if localFile.ModTime > 0 ∧ s3File.ModTime > 0 ∧
      (localFile.ModTime - s3File.ModTime).natAbs ≤ 1 then true
  else
    match head with
    | none => false
    | some md =>
      match md.lookup "local-mtime" with
      | none => false
      | some storedMTime =>
        match parseInt64 storedMTime with
        | none => false
        | some mtimeUnix => mtimeUnix = localFile.ModTime

/-- Embedding of `shouldUseChecksumCompare`. -/
def shouldUseChecksumCompare (syncCompare : String) : Bool :=
  syncCompare ≠ "size-time"

/-- Embedding of `filesAreSameByMode`: dispatch on the sync comparison
mode fixed for the whole sync call. -/
def filesAreSameByMode (syncCompare : String) (head : Option (List (String × String)))
    (localFile s3File : FileInfo) : Bool :=
  if shouldUseChecksumCompare syncCompare then
    filesAreSameWithMetadataCheck head localFile s3File
  else
    filesAreSameWithMtimeCheck head localFile s3File

/-- C5: under the checksum strategy, a pair with equal sizes, a local
digest differing from the ETag, and no `local-md5` field in the object
metadata classifies DIFFERENT (false), never SAME. -/
theorem checksum_no_false_skip (syncCompare : String)
    (head : Option (List (String × String))) (localFile s3File : FileInfo)
    (hmode : syncCompare ≠ "size-time")
    (hsize : localFile.Size = s3File.Size)
    (hdigest : localFile.MD5Hash ≠ s3File.MD5Hash)
    (hmeta : ∀ md, head = some md → md.lookup "local-md5" = none) :
    filesAreSameByMode syncCompare head localFile s3File = false := by
  rw [filesAreSameByMode, if_pos (by simp [shouldUseChecksumCompare, hmode])]
  rw [filesAreSameWithMetadataCheck.eq_def]
  rw [if_neg (by simp [hsize]), if_neg hdigest]
  cases head with
  | none => simp [hdigest]
  | some md => simp [hmeta md rfl, hdigest]

theorem checksum_no_false_skip_witness :
    (("checksum" : String) ≠ "size-time"
      ∧ (⟨"a", 5, "h1", 0, false, "a"⟩ : FileInfo).Size = (⟨"a", 5, "e9", 0, false, "a"⟩ : FileInfo).Size
      ∧ (⟨"a", 5, "h1", 0, false, "a"⟩ : FileInfo).MD5Hash ≠ (⟨"a", 5, "e9", 0, false, "a"⟩ : FileInfo).MD5Hash
      ∧ (∀ md, (some [("other", "v")] : Option (List (String × String))) = some md →
          md.lookup "local-md5" = none))
    ∧ filesAreSameByMode "checksum" (some [("other", "v")])
        ⟨"a", 5, "h1", 0, false, "a"⟩ ⟨"a", 5, "e9", 0, false, "a"⟩ = false :=
  ⟨⟨by decide, by decide, by decide, by intro md hmd; cases hmd; rfl⟩,
    checksum_no_false_skip "checksum" (some [("other", "v")])
      ⟨"a", 5, "h1", 0, false, "a"⟩ ⟨"a", 5, "e9", 0, false, "a"⟩
      (by decide) (by decide) (by decide) (by intro md hmd; cases hmd; rfl)⟩

/-- C6: under the size-time strategy, unequal sizes classify DIFFERENT;
with equal sizes and both modification times known (positive), an
absolute difference of at most one second classifies SAME; otherwise the
pair classifies SAME exactly when the object's `local-mtime` metadata
field is present and parses to exactly the local modification time, so
any missing or unparsable value classifies DIFFERENT. -/
theorem size_time_oracle_spec
    (head : Option (List (String × String))) (localFile s3File : FileInfo) :
    (localFile.Size ≠ s3File.Size →
      filesAreSameByMode "size-time" head localFile s3File = false)
    ∧ (localFile.Size = s3File.Size → localFile.ModTime > 0 → s3File.ModTime > 0 →
        (localFile.ModTime - s3File.ModTime).natAbs ≤ 1 →
        filesAreSameByMode "size-time" head localFile s3File = true)
    ∧ (localFile.Size = s3File.Size →
        ¬ (localFile.ModTime > 0 ∧ s3File.ModTime > 0 ∧
            (localFile.ModTime - s3File.ModTime).natAbs ≤ 1) →
        (filesAreSameByMode "size-time" head localFile s3File = true
          ↔ ∃ md v, head = some md ∧ md.lookup "local-mtime" = some v
              ∧ parseInt64 v = some localFile.ModTime)) := by
  have hmode : filesAreSameByMode "size-time" head localFile s3File
      = filesAreSameWithMtimeCheck head localFile s3File := by
    rw [filesAreSameByMode, if_neg (by simp [shouldUseChecksumCompare])]
  refine ⟨?_, ?_, ?_⟩
  · intro hne
    rw [hmode, filesAreSameWithMtimeCheck.eq_def, if_pos hne]
  · intro hsize hl hs hdiff
    rw [hmode, filesAreSameWithMtimeCheck.eq_def, if_neg (by simp [hsize]),
      if_pos ⟨hl, hs, hdiff⟩]
  · intro hsize hnot
    rw [hmode, filesAreSameWithMtimeCheck.eq_def, if_neg (by simp [hsize]), if_neg hnot]
    cases head with
    | none => simp
    | some md =>
      cases hlk : md.lookup "local-mtime" with
      | none =>
        simp only [hlk]
        constructor
        · intro hfalse; simp at hfalse
        · rintro ⟨md', v', hmd', hv', hp'⟩
          cases hmd'
          rw [hlk] at hv'
          cases hv'
      | some v =>
        simp only [hlk]
        cases hpv : parseInt64 v with
        | none =>
          simp only [hpv]
          constructor
          · intro hfalse; simp at hfalse
          · rintro ⟨md', v', hmd', hv', hp'⟩
            cases hmd'
            rw [hlk] at hv'
            cases hv'
            rw [hpv] at hp'
            cases hp'
        | some mtimeUnix =>
          simp only [hpv, decide_eq_true_eq]
          constructor
          · intro heq
            exact ⟨md, v, rfl, hlk, by rw [hpv, heq]⟩
          · rintro ⟨md', v', hmd', hv', hp'⟩
            cases hmd'
            rw [hlk] at hv'
            cases hv'
            rw [hpv] at hp'
            exact Option.some.inj hp'

theorem size_time_oracle_spec_witness :
    ((⟨"a", 5, "", 100, false, "a"⟩ : FileInfo).Size = (⟨"a", 5, "", 101, false, "a"⟩ : FileInfo).Size
      ∧ (⟨"a", 5, "", 100, false, "a"⟩ : FileInfo).ModTime > 0
      ∧ (⟨"a", 5, "", 101, false, "a"⟩ : FileInfo).ModTime > 0
      ∧ ((⟨"a", 5, "", 100, false, "a"⟩ : FileInfo).ModTime
          - (⟨"a", 5, "", 101, false, "a"⟩ : FileInfo).ModTime).natAbs ≤ 1)
    ∧ filesAreSameByMode "size-time" none
        ⟨"a", 5, "", 100, false, "a"⟩ ⟨"a", 5, "", 101, false, "a"⟩ = true :=
  ⟨⟨by decide, by decide, by decide, by decide⟩,
    (size_time_oracle_spec none ⟨"a", 5, "", 100, false, "a"⟩ ⟨"a", 5, "", 101, false, "a"⟩).2.1
      (by decide) (by decide) (by decide) (by decide)⟩

/-! ## Diff / reconciliation engine (claim C2)

Embedding of the classification loops of `syncLocalToS3` (and
symmetrically `syncS3ToLocal`). The Go code iterates over maps keyed by
relative path; trees are modelled as record lists whose relative paths
are distinct (the enumerators key by relative path), and the oracle
parameter stands for the `filesAreSameByMode` call. -/

/-- Source records joining the transfer set: no destination record of
the same relative path, or the oracle classifies the pair DIFFERENT. -/
def classifyTransfer (oracle : FileInfo → FileInfo → Bool) (src dst : List FileInfo) :
    List FileInfo :=
  src.filter (fun f =>
    match dst.find? (fun g => g.RelPath == f.RelPath) with
    | some g => ! oracle f g
    | none => true)

/-- Destination records joining the delete set: no source record of the
same relative path. -/
def classifyDelete (src dst : List FileInfo) : List FileInfo :=
  dst.filter (fun g => ! src.any (fun f => f.RelPath == g.RelPath))

/-- Number of source paths present on both sides that the oracle
classifies SAME (the spec's `unchangedCount`; the code does not
materialize a counter, it is the complement of the transfer set among
the source records). -/
def unchangedCount (oracle : FileInfo → FileInfo → Bool) (src dst : List FileInfo) : Nat :=
  src.countP (fun f =>
    match dst.find? (fun g => g.RelPath == f.RelPath) with
    | some g => oracle f g
    | none => false)

theorem find?_relPath_eq (dst : List FileInfo) (hnd : (dst.map FileInfo.RelPath).Nodup)
    (g : FileInfo) (hg : g ∈ dst) (p : String) (hp : g.RelPath = p) :
    dst.find? (fun g' => g'.RelPath == p) = some g := by
  induction dst with
  | nil => cases hg
  | cons d ds ih =>
    rw [List.map_cons, List.nodup_cons] at hnd
    rcases List.mem_cons.mp hg with hgd | hgds
    · subst hgd
      rw [List.find?_cons_of_pos]
      simp [hp]
    · have hdp : (d.RelPath == p) = false := by
        simp only [beq_eq_false_iff_ne, ne_eq]
        intro hdp
        exact hnd.1 (by rw [hdp, ← hp]; exact List.mem_map_of_mem _ hgds)
      simp only [List.find?_cons, hdp]
      exact ih hnd.2 hgds

theorem countP_not_add {α : Type} (l : List α) (p : α → Bool) :
    l.countP p + l.countP (fun x => ! p x) = l.length := by
  induction l with
  | nil => simp
  | cons x xs ih =>
    by_cases h : p x = true
    · rw [List.countP_cons_of_pos _ _ h, List.countP_cons_of_neg _ _ (by simp [h])]
      simp; omega
    · rw [List.countP_cons_of_neg _ _ h, List.countP_cons_of_pos _ _ (by simp [h])]
      simp; omega

/-- The four scenario records of the spec: source = {a:h1, b:h2},
destination = {b:h2, c:h3} (a size is recorded per file; both `b`
records agree in size and digest). -/
def fileA : FileInfo := ⟨"a", 1, "h1", 0, false, "a"⟩

def fileB : FileInfo := ⟨"b", 1, "h2", 0, false, "b"⟩

def fileC : FileInfo := ⟨"c", 1, "h3", 0, false, "c"⟩

/-- The checksum oracle of the scenario, with no metadata head call
needed (digests match or sizes differ before any head). -/
def scenarioOracle (f g : FileInfo) : Bool :=
  filesAreSameByMode "checksum" none f g

/-- C2: per-path classification of the diff engine. A source path absent
from the destination joins the transfer set; a path present on both
sides joins the transfer set exactly when the oracle says DIFFERENT, and
otherwise is counted unchanged (transfer count plus unchanged count
exhausts the source); a destination path absent from the source joins
the delete set. In the concrete scenario source = {a:h1, b:h2},
destination = {b:h2, c:h3} the result is toTransfer = {a},
toDelete = {c}, unchanged = 1. -/
theorem diff_engine_classification (oracle : FileInfo → FileInfo → Bool)
    (src dst : List FileInfo) (hdst : (dst.map FileInfo.RelPath).Nodup) :
    (∀ f ∈ src, (∀ g ∈ dst, g.RelPath ≠ f.RelPath) → f ∈ classifyTransfer oracle src dst)
    ∧ (∀ f ∈ src, ∀ g ∈ dst, g.RelPath = f.RelPath →
        (f ∈ classifyTransfer oracle src dst ↔ oracle f g = false))
    ∧ (∀ g, g ∈ classifyDelete src dst ↔ g ∈ dst ∧ ∀ f ∈ src, f.RelPath ≠ g.RelPath)
    ∧ (classifyTransfer oracle src dst).length + unchangedCount oracle src dst = src.length
    ∧ (classifyTransfer scenarioOracle [fileA, fileB] [fileB, fileC] = [fileA]
        ∧ classifyDelete [fileA, fileB] [fileB, fileC] = [fileC]
        ∧ unchangedCount scenarioOracle [fileA, fileB] [fileB, fileC] = 1) := by
  refine ⟨?_, ?_, ?_, ?_, ?_, ?_, ?_⟩
  · intro f hf habsent
    rw [classifyTransfer, List.mem_filter]
    refine ⟨hf, ?_⟩
    have hfind : dst.find? (fun g => g.RelPath == f.RelPath) = none := by
      rw [List.find?_eq_none]
      intro g hg
      simp only [beq_iff_eq]
      exact habsent g hg
    rw [hfind]
  · intro f hf g hg hgp
    rw [classifyTransfer, List.mem_filter]
    rw [find?_relPath_eq dst hdst g hg f.RelPath hgp]
    simp [hf]
  · intro g
    rw [classifyDelete, List.mem_filter]
    simp only [Bool.not_eq_eq_eq_not, Bool.not_true, List.any_eq_false, beq_iff_eq]
  · rw [classifyTransfer, unchangedCount, ← List.countP_eq_length_filter]
    have hcompl : (fun f =>
        match dst.find? (fun g => g.RelPath == f.RelPath) with
        | some g => ! oracle f g
        | none => true)
        = (fun f => ! (fun f' =>
            match dst.find? (fun g => g.RelPath == f'.RelPath) with
            | some g => oracle f' g
            | none => false) f) := by
      funext f
      simp only []
      cases dst.find? (fun g => g.RelPath == f.RelPath) <;> simp
    rw [hcompl, Nat.add_comm]
    exact countP_not_add src _
  · decide
  · decide
  · decide

theorem diff_engine_classification_witness :
    (([fileB, fileC].map FileInfo.RelPath).Nodup)
    ∧ (classifyTransfer scenarioOracle [fileA, fileB] [fileB, fileC] = [fileA]
        ∧ classifyDelete [fileA, fileB] [fileB, fileC] = [fileC]
        ∧ unchangedCount scenarioOracle [fileA, fileB] [fileB, fileC] = 1) :=
  ⟨by decide,
    (diff_engine_classification scenarioOracle [fileA, fileB] [fileB, fileC] (by decide)).2.2.2.2⟩

/-! ## Dry-run equivalence (claim C3)

Embedding of the dispatch stage of the sync engine: `uploadFiles`,
`downloadFiles`, `deleteS3Files` and `deleteLocalFiles` process their
file lists (the worker pool is embedded deterministically in producer
order), appending to the shared `SyncResult` under its lock and, in live
mode, performing store/filesystem mutations. Each single-object transfer
is abstracted to its outcome through `LiveEnv`; the emitted `Mutation`
trace records every durable store or filesystem change. -/

structure SyncResult where
  Uploaded : List String
  Downloaded : List String
  Deleted : List String
  Errors : List String
deriving DecidableEq

def emptySyncResult : SyncResult := ⟨[], [], [], []⟩

/-- Durable mutations of the object store or the local filesystem. -/
inductive Mutation
  | putObject (bucket key : String)
  | deleteObject (bucket key : String)
  | mkdirLocal (dir : String)
  | writeLocal (path : String)
  | chtimesLocal (path : String)
  | removeLocal (path : String)
deriving DecidableEq

/-- Outcomes of the live operations, per file. -/
structure LiveEnv where
  mkdirOk : String → Bool
  uploadOk : String → Bool
  downloadOk : String → Bool
  deleteOk : String → Bool

/-- Live environment in which every operation succeeds. -/
def allOkLive : LiveEnv := ⟨fun _ => true, fun _ => true, fun _ => true, fun _ => true⟩

/-- One `uploadFiles` worker body: dry-run logs and appends to
`Uploaded`; live mode uploads (recording the put), appending to
`Uploaded` on success and to `Errors` on failure. -/
def uploadFileTask (dryRun : Bool) (env : LiveEnv) (bucket s3Prefix : String)
    (file : FileInfo) (result : SyncResult) : SyncResult × List Mutation :=
  if dryRun then
    ({ result with Uploaded := result.Uploaded ++ [file.RelPath] }, [])
  else if env.uploadOk file.RelPath then
    ({ result with Uploaded := result.Uploaded ++ [file.RelPath] },
      [.putObject bucket (s3Prefix ++ file.RelPath)])
  else
    ({ result with Errors := result.Errors ++ ["Failed to upload " ++ file.RelPath] }, [])

/-- One `downloadFiles` worker body: dry-run logs and appends to
`Downloaded`; live mode creates the destination directory, downloads,
and under the size-time mode restores the modification time. -/
def downloadFileTask (dryRun : Bool) (env : LiveEnv) (syncCompare destination : String)
    (file : FileInfo) (result : SyncResult) : SyncResult × List Mutation :=
  if dryRun then
    ({ result with Downloaded := result.Downloaded ++ [file.RelPath] }, [])
  else
    let destPath := destination ++ "/" ++ file.RelPath
    if env.mkdirOk destPath = false then
      ({ result with Errors := result.Errors ++ ["Failed to create directory for " ++ file.RelPath] },
        [])
    else if env.downloadOk file.RelPath = false then
      ({ result with Errors := result.Errors ++ ["Failed to download " ++ file.RelPath] },
        [.mkdirLocal destPath])
    else if shouldUseChecksumCompare syncCompare = false ∧ file.ModTime > 0 then
      ({ result with Downloaded := result.Downloaded ++ [file.RelPath] },
        [.mkdirLocal destPath, .writeLocal destPath, .chtimesLocal destPath])
    else
      ({ result with Downloaded := result.Downloaded ++ [file.RelPath] },
        [.mkdirLocal destPath, .writeLocal destPath])

/-- One `deleteS3Files` loop body. -/
def deleteS3FileTask (dryRun : Bool) (env : LiveEnv) (bucket : String)
    (file : FileInfo) (result : SyncResult) : SyncResult × List Mutation :=
  if dryRun then
    ({ result with Deleted := result.Deleted ++ [file.RelPath] }, [])
  else if env.deleteOk file.RelPath then
    ({ result with Deleted := result.Deleted ++ [file.RelPath] },
      [.deleteObject bucket file.Path])
  else
    ({ result with Errors := result.Errors ++ ["Failed to delete S3 file " ++ file.RelPath] }, [])

/-- One `deleteLocalFiles` loop body. -/
def deleteLocalFileTask (dryRun : Bool) (env : LiveEnv)
    (file : FileInfo) (result : SyncResult) : SyncResult × List Mutation :=
  if dryRun then
    ({ result with Deleted := result.Deleted ++ [file.RelPath] }, [])
  else if env.deleteOk file.RelPath then
    ({ result with Deleted := result.Deleted ++ [file.RelPath] },
      [.removeLocal file.Path])
  else
    ({ result with Errors := result.Errors ++ ["Failed to delete local file " ++ file.RelPath] }, [])

/-- Run the per-file bodies over a file list in producer order,
threading the shared result and collecting the mutation trace. -/
def runSyncTasks (task : FileInfo → SyncResult → SyncResult × List Mutation) :
    List FileInfo → SyncResult → SyncResult × List Mutation
  | [], result => (result, [])
  | f :: fs, result =>
    let r1 := task f result
    let r2 := runSyncTasks task fs r1.1
    (r2.1, r1.2 ++ r2.2)

/-- Embedding of `syncLocalToS3` after enumeration: classify, then
dispatch uploads and S3 deletes. Returns the classification, the final
`SyncResult` and the mutation trace. -/
def syncLocalToS3Model (dryRun : Bool) (env : LiveEnv) (syncCompare : String)
    (head : FileInfo → FileInfo → Option (List (String × String)))
    (bucket s3Prefix : String) (localFiles s3Files : List FileInfo) :
    (List FileInfo × List FileInfo) × SyncResult × List Mutation :=
  let oracle := fun f g => filesAreSameByMode syncCompare (head f g) f g
  let toUpload := classifyTransfer oracle localFiles s3Files
  let toDelete := classifyDelete localFiles s3Files
  let up := runSyncTasks (uploadFileTask dryRun env bucket s3Prefix) toUpload emptySyncResult
  let del := runSyncTasks (deleteS3FileTask dryRun env bucket) toDelete up.1
  ((toUpload, toDelete), del.1, up.2 ++ del.2)

/-- Embedding of `syncS3ToLocal` after enumeration: classify (the oracle
receives local record then remote record, as in the source), then
dispatch downloads and local deletes. -/
def syncS3ToLocalModel (dryRun : Bool) (env : LiveEnv) (syncCompare destination : String)
    (head : FileInfo → FileInfo → Option (List (String × String)))
    (s3Files localFiles : List FileInfo) :
    (List FileInfo × List FileInfo) × SyncResult × List Mutation :=
  let oracle := fun s3File localFile =>
    filesAreSameByMode syncCompare (head localFile s3File) localFile s3File
  let toDownload := classifyTransfer oracle s3Files localFiles
  let toDelete := classifyDelete s3Files localFiles
  let dl := runSyncTasks (downloadFileTask dryRun env syncCompare destination) toDownload emptySyncResult
  let del := runSyncTasks (deleteLocalFileTask dryRun env) toDelete dl.1
  ((toDownload, toDelete), del.1, dl.2 ++ del.2)

theorem runSyncTasks_fst_congr (t1 t2 : FileInfo → SyncResult → SyncResult × List Mutation)
    (h : ∀ f r, (t1 f r).1 = (t2 f r).1) :
    ∀ files r, (runSyncTasks t1 files r).1 = (runSyncTasks t2 files r).1 := by
  intro files
  induction files with
  | nil => intro r; rfl
  | cons f fs ih =>
    intro r
    simp only [runSyncTasks]
    rw [h f r]
    exact ih _

theorem runSyncTasks_no_mutations (t : FileInfo → SyncResult → SyncResult × List Mutation)
    (h : ∀ f r, (t f r).2 = []) :
    ∀ files r, (runSyncTasks t files r).2 = [] := by
  intro files
  induction files with
  | nil => intro r; rfl
  | cons f fs ih =>
    intro r
    simp only [runSyncTasks]
    rw [h f r, ih]
    rfl

/-- C3: under dry-run, for every pair of trees the classification into
the transfer and delete sets is identical to live mode (for every live
environment), the paths appended to the report's Uploaded, Downloaded
and Deleted lists are identical to a successful live run, and no
mutating operation is performed: no object is put to or deleted from the
store and no local directory or file is created, written, touched, or
removed — in both sync directions. -/
theorem dry_run_equivalence (env : LiveEnv) (syncCompare : String)
    (head : FileInfo → FileInfo → Option (List (String × String)))
    (bucket s3Prefix destination : String) (localFiles s3Files : List FileInfo) :
    ((syncLocalToS3Model true env syncCompare head bucket s3Prefix localFiles s3Files).1
        = (syncLocalToS3Model false env syncCompare head bucket s3Prefix localFiles s3Files).1
      ∧ (syncLocalToS3Model true env syncCompare head bucket s3Prefix localFiles s3Files).2.2 = []
      ∧ (syncLocalToS3Model true env syncCompare head bucket s3Prefix localFiles s3Files).2.1
        = (syncLocalToS3Model false allOkLive syncCompare head bucket s3Prefix localFiles s3Files).2.1)
    ∧ ((syncS3ToLocalModel true env syncCompare destination head s3Files localFiles).1
        = (syncS3ToLocalModel false env syncCompare destination head s3Files localFiles).1
      ∧ (syncS3ToLocalModel true env syncCompare destination head s3Files localFiles).2.2 = []
      ∧ (syncS3ToLocalModel true env syncCompare destination head s3Files localFiles).2.1
        = (syncS3ToLocalModel false allOkLive syncCompare destination head s3Files localFiles).2.1) := by
  refine ⟨⟨rfl, ?_, ?_⟩, ⟨rfl, ?_, ?_⟩⟩
  · rw [syncLocalToS3Model]
    simp only []
    rw [runSyncTasks_no_mutations _ (fun f r => rfl),
      runSyncTasks_no_mutations _ (fun f r => rfl)]
    rfl
  · rw [syncLocalToS3Model, syncLocalToS3Model]
    simp only []
    rw [runSyncTasks_fst_congr (uploadFileTask true env bucket s3Prefix)
        (uploadFileTask false allOkLive bucket s3Prefix)
        (fun f r => by simp [uploadFileTask, allOkLive])]
    rw [runSyncTasks_fst_congr (deleteS3FileTask true env bucket)
        (deleteS3FileTask false allOkLive bucket)
        (fun f r => by simp [deleteS3FileTask, allOkLive])]
  · rw [syncS3ToLocalModel]
    simp only []
    rw [runSyncTasks_no_mutations _ (fun f r => rfl),
      runSyncTasks_no_mutations _ (fun f r => rfl)]
    rfl
  · rw [syncS3ToLocalModel, syncS3ToLocalModel]
    simp only []
    rw [runSyncTasks_fst_congr (downloadFileTask true env syncCompare destination)
        (downloadFileTask false allOkLive syncCompare destination)
        (fun f r => by
          by_cases hm : shouldUseChecksumCompare syncCompare = false ∧ f.ModTime > 0 <;>
            simp [downloadFileTask, allOkLive, hm])]
    rw [runSyncTasks_fst_congr (deleteLocalFileTask true env)
        (deleteLocalFileTask false allOkLive)
        (fun f r => by simp [deleteLocalFileTask, allOkLive])]

/-! ## Download atomic replace (claim C4)

Embedding of `downloadFileWithParams`: the object is downloaded into a
fresh temporary file created by `os.CreateTemp` in the destination
directory; with encryption enabled it is then decrypted into a second
fresh temporary file; only after the full download (and decryption)
succeeded is the temporary file renamed onto the destination path
(`os.Rename`, an atomic replace). Deferred removals clean the temporary
files up. The read-only skip-existing check returns without touching the
filesystem and is not modelled; the fresh temporary names and the
network outcome come from `DownloadEnv` (`os.CreateTemp` never returns
the name of an existing file, so the names differ from an existing
destination path). -/

def FileSys := String → Option (List Nat)

def updateFS (fs : FileSys) (p : String) (v : Option (List Nat)) : FileSys :=
  fun q => if q = p then v else fs q

structure DownloadEnv where
  tmpName : String
  decName : String
  createTempOk : Bool
  createDecTempOk : Bool
  downloadResult : Except String (List Nat)

/-- Embedding of `downloadFileWithParams` (dry-run early return, then
the encrypt and plain branches). Returns the final filesystem and the
result. -/
def downloadFileWithParams (a : AEAD) (kdf : List Nat → List Nat → List Nat)
    (password : List Nat) (encrypt dryRun : Bool) (env : DownloadEnv)
    (fs : FileSys) (localPath : String) : FileSys × Except String Unit :=
  if dryRun then (fs, .ok ())
  else if encrypt then
    if env.createTempOk = false then (fs, .error "failed to create temp file")
    else
      match env.downloadResult with
      | .error e =>
        (updateFS (updateFS fs env.tmpName (some [])) env.tmpName none, .error e)
      | .ok bytes =>
        if env.createDecTempOk = false then
          (updateFS (updateFS fs env.tmpName (some bytes)) env.tmpName none,
            .error "failed to create temp decrypted file")
        else
          match decryptStream a kdf password bytes with
          | .error e =>
            (updateFS (updateFS (updateFS (updateFS fs
                env.tmpName (some bytes)) env.decName (some [])) env.decName none)
                env.tmpName none,
              .error ("decryption failed: " ++ e))
          | .ok plainBytes =>
            (updateFS (updateFS (updateFS (updateFS (updateFS fs
                env.tmpName (some bytes)) env.decName (some plainBytes))
                localPath (some plainBytes)) env.decName none) env.tmpName none,
              .ok ())
  else
    if env.createTempOk = false then (fs, .error "failed to create temp file")
    else
      match env.downloadResult with
      | .error e =>
        (updateFS (updateFS fs env.tmpName (some [])) env.tmpName none, .error e)
      | .ok bytes =>
        (updateFS (updateFS (updateFS fs env.tmpName (some bytes))
            localPath (some bytes)) env.tmpName none,
          .ok ())

/-- C4: any download that fails before completion — a network error
reported by the downloader, a decryption failure, or an aborted
temporary-file step — leaves a pre-existing file at the destination path
byte-for-byte unchanged, because all writes before the final rename
target the fresh temporary files; and when the operation succeeds in
live mode, the destination holds exactly the downloaded (and, under
encryption, decrypted) content, the rename having happened only after
the full download and decryption succeeded. -/
theorem download_failure_preserves_destination (a : AEAD)
    (kdf : List Nat → List Nat → List Nat) (password : List Nat)
    (encrypt dryRun : Bool) (env : DownloadEnv) (fs : FileSys) (localPath : String)
    (htmp : env.tmpName ≠ localPath) (hdec : env.decName ≠ localPath) :
    (∀ e, (downloadFileWithParams a kdf password encrypt dryRun env fs localPath).2 = .error e →
      (downloadFileWithParams a kdf password encrypt dryRun env fs localPath).1 localPath
        = fs localPath)
    ∧ (dryRun = false → encrypt = true →
        (downloadFileWithParams a kdf password encrypt dryRun env fs localPath).2 = .ok () →
        ∃ bytes plainBytes, env.downloadResult = .ok bytes
          ∧ decryptStream a kdf password bytes = .ok plainBytes
          ∧ (downloadFileWithParams a kdf password encrypt dryRun env fs localPath).1 localPath
            = some plainBytes) := by
  have htmp' : localPath ≠ env.tmpName := Ne.symm htmp
  have hdec' : localPath ≠ env.decName := Ne.symm hdec
  constructor
  · intro e herr
    rw [downloadFileWithParams] at herr ⊢
    by_cases hdry : dryRun
    · rw [if_pos hdry] at herr
      simp at herr
    · rw [if_neg hdry] at herr ⊢
      by_cases henc : encrypt
      · rw [if_pos henc] at herr ⊢
        by_cases hct : env.createTempOk = false
        · rw [if_pos hct]
        · rw [if_neg hct] at herr ⊢
          cases hdl : env.downloadResult with
          | error e2 => simp [updateFS, htmp']
          | ok bytes =>
            rw [hdl] at herr
            simp only [] at herr ⊢
            by_cases hcd : env.createDecTempOk = false
            · rw [if_pos hcd]
              simp [updateFS, htmp']
            · rw [if_neg hcd] at herr ⊢
              cases hds : decryptStream a kdf password bytes with
              | error e3 => simp [updateFS, htmp', hdec']
              | ok plainBytes =>
                rw [hds] at herr
                simp at herr
      · rw [if_neg henc] at herr ⊢
        by_cases hct : env.createTempOk = false
        · rw [if_pos hct]
        · rw [if_neg hct] at herr ⊢
          cases hdl : env.downloadResult with
          | error e2 => simp [updateFS, htmp']
          | ok bytes =>
            rw [hdl] at herr
            simp at herr
  · intro hdry henc hok
    subst hdry
    subst henc
    rw [downloadFileWithParams] at hok ⊢
    rw [if_neg (show ¬ ((false : Bool) = true) by simp)] at hok ⊢
    rw [if_pos (show (true : Bool) = true from rfl)] at hok ⊢
    by_cases hct : env.createTempOk = false
    · rw [if_pos hct] at hok
      simp at hok
    · rw [if_neg hct] at hok ⊢
      cases hdl : env.downloadResult with
      | error e2 =>
        rw [hdl] at hok
        simp at hok
      | ok bytes =>
        rw [hdl] at hok
        simp only [] at hok ⊢
        by_cases hcd : env.createDecTempOk = false
        · rw [if_pos hcd] at hok
          simp at hok
        · rw [if_neg hcd] at hok ⊢
          cases hds : decryptStream a kdf password bytes with
          | error e3 =>
            rw [hds] at hok
            simp at hok
          | ok plainBytes =>
            refine ⟨bytes, plainBytes, rfl, hds, ?_⟩
            simp [updateFS, htmp', hdec']

theorem download_failure_preserves_destination_witness :
    (("tmp1" : String) ≠ "dest" ∧ ("tmp2" : String) ≠ "dest")
    ∧ (∀ e, (downloadFileWithParams demoAEAD demoKdf [7] true false
          ⟨"tmp1", "tmp2", true, true, .error "network error"⟩
          (fun _ => some [9, 9]) "dest").2 = .error e →
        (downloadFileWithParams demoAEAD demoKdf [7] true false
          ⟨"tmp1", "tmp2", true, true, .error "network error"⟩
          (fun _ => some [9, 9]) "dest").1 "dest" = some [9, 9]) :=
  ⟨⟨by decide, by decide⟩, fun e herr =>
    (download_failure_preserves_destination demoAEAD demoKdf [7] true false
      ⟨"tmp1", "tmp2", true, true, .error "network error"⟩
      (fun _ => some [9, 9]) "dest" (by decide) (by decide)).1 e herr⟩

/-! ## Concurrency executor guards (claim C9)

Embedding of the context-aware `runWorkerPool` and
`runWorkerPoolStream`: the pool is embedded deterministically (tasks in
order, first error cancels the rest); the caller's context is its
possible pre-existing cancellation error. The embedding keeps the exact
guard order of the source: `runWorkerPool` returns nil for an empty task
list before validating `maxWorkers`, while `runWorkerPoolStream`
validates `maxWorkers` first. The second component lists the tasks that
actually ran; the stream variant's third component tells whether the
producer was started. -/

def runTasks {T : Type} (worker : T → Except String Unit) :
    List T → Except String Unit × List T
  | [] => (.ok (), [])
  | t :: ts =>
    match worker t with
    | .error e => (.error e, [t])
    | .ok () =>
      let rest := runTasks worker ts
      (rest.1, t :: rest.2)

/-- Embedding of `runWorkerPool` (fixed-list mode). -/
def runWorkerPool {T : Type} (ctxErr : Option String) (tasks : List T)
    (maxWorkers : Int) (worker : T → Except String Unit) :
    Except String Unit × List T :=
  if tasks.isEmpty then (.ok (), [])
  else if maxWorkers < 1 then (.error "max workers must be at least 1", [])
  else
    match ctxErr with
    | some e => (.error e, [])
    | none => runTasks worker tasks

/-- Embedding of `runWorkerPoolStream` (streamed-producer mode); the
producer's eventual task sequence is a parameter. -/
def runWorkerPoolStream {T : Type} (ctxErr : Option String) (maxWorkers : Int)
    (worker : T → Except String Unit) (producedTasks : List T) :
    Except String Unit × List T × Bool :=
  if maxWorkers < 1 then (.error "max workers must be at least 1", [], false)
  else
    match ctxErr with
    | some e => (.error e, [], false)
    | none =>
      let r := runTasks worker producedTasks
      (r.1, r.2, true)

/-- C9 counterexample: the fixed-list executor invoked with an empty
task list and `maxWorkers = 0` returns success, not a configuration
error — the empty-list early return precedes the `maxWorkers`
validation. -/
theorem pool_config_error_counterexample :
    (runWorkerPool none ([] : List Unit) 0 (fun _ => .ok ())).1 = .ok ()
    ∧ ∀ e, (runWorkerPool none ([] : List Unit) 0 (fun _ => .ok ())).1 ≠ .error e := by
  constructor
  · rfl
  · intro e h
    simp [runWorkerPool] at h

/-- C9 (amended): with `maxWorkers < 1`, the streamed-producer executor
always returns the configuration error immediately, before starting the
producer or any task, and the fixed-list executor does so whenever its
task list is non-empty, also before running any task; with an empty task
list the fixed-list executor instead returns success immediately (its
empty-list early return precedes the validation), still running
nothing. -/
theorem pool_config_error {T : Type} (ctxErr : Option String) (tasks producedTasks : List T)
    (worker : T → Except String Unit) (maxWorkers : Int) (hw : maxWorkers < 1) :
    (tasks ≠ [] →
      runWorkerPool ctxErr tasks maxWorkers worker
        = (.error "max workers must be at least 1", []))
    ∧ runWorkerPool ctxErr ([] : List T) maxWorkers worker = (.ok (), [])
    ∧ runWorkerPoolStream ctxErr maxWorkers worker producedTasks
        = (.error "max workers must be at least 1", [], false) := by
  refine ⟨?_, ?_, ?_⟩
  · intro hne
    rw [runWorkerPool.eq_def, if_neg (by simp [hne]), if_pos hw]
  · rw [runWorkerPool.eq_def, if_pos (by simp)]
  · rw [runWorkerPoolStream.eq_def, if_pos hw]

theorem pool_config_error_witness :
    ((0 : Int) < 1)
    ∧ (([()] : List Unit) ≠ [] →
        runWorkerPool none [()] 0 (fun _ => .ok ())
          = (.error "max workers must be at least 1", []))
    ∧ runWorkerPool none ([] : List Unit) 0 (fun _ => .ok ()) = (.ok (), [])
    ∧ runWorkerPoolStream none 0 (fun _ => .ok ()) ([()] : List Unit)
        = (.error "max workers must be at least 1", [], false) :=
  ⟨by decide,
    (pool_config_error none [()] [()] (fun _ => .ok ()) 0 (by decide)).1,
    (pool_config_error none ([] : List Unit) [()] (fun _ => .ok ()) 0 (by decide)).2.1,
    (pool_config_error none [()] [()] (fun _ => .ok ()) 0 (by decide)).2.2⟩

/-! ## Sequential WriteAt adapter (claim C10)

Embedding of `writeAtWrapper.WriteAt`: the adapter accepts a `WriteAt`
call only at the exact current offset, forwards the bytes to the wrapped
sequential writer and advances the offset by the count the writer
reports; any other offset is rejected with an error and nothing is
forwarded. The wrapped writer is modelled by `accept`, the number of
bytes it reports written for an offered buffer (at most the buffer
length, fewer modelling a short write). -/

structure WriteAtState where
  offset : Int
  received : List Nat

/-- One `WriteAt` call: returns the new state, the reported count, and
whether the call succeeded without error. -/
def writeAtCall (accept : List Nat → Nat) (st : WriteAtState) (p : List Nat) (off : Int) :
    WriteAtState × Nat × Bool :=
  if off ≠ st.offset then (st, 0, false)
  else
    let n := min (accept p) p.length
    (⟨st.offset + n, st.received ++ p.take n⟩, n, n = p.length)

/-- A downloader delivering object `obj` issues calls `(off, len)` whose
payload is the object slice starting at `off`. -/
def runWriteAt (accept : List Nat → Nat) (obj : List Nat) :
    List (Int × Nat) → WriteAtState → WriteAtState
  | [], st => st
  | (off, len) :: rest, st =>
    let p := (obj.drop off.toNat).take len
    runWriteAt accept obj rest (writeAtCall accept st p off).1

theorem take_slice_take {α : Type} (l : List α) (k n : Nat) (h : n ≤ k) :
    (l.take k).take n = l.take n := by
  rw [List.take_take, Nat.min_eq_left h]

theorem slice_eq_take_length {α : Type} (l : List α) (len : Nat) :
    l.take len = l.take (l.take len).length := by
  rw [List.length_take]
  rcases Nat.le_total len l.length with h | h
  · rw [Nat.min_eq_left h]
  · rw [Nat.min_eq_right h, List.take_of_length_le h, List.take_of_length_le (Nat.le_refl _)]

theorem writeAtCall_invariant (accept : List Nat → Nat) (obj : List Nat)
    (st : WriteAtState) (p : List Nat) (off : Int)
    (hoff : 0 ≤ st.offset) (hrec : st.received = obj.take st.offset.toNat)
    (hp : p = (obj.drop off.toNat).take p.length) :
    0 ≤ (writeAtCall accept st p off).1.offset
    ∧ (writeAtCall accept st p off).1.received
      = obj.take (writeAtCall accept st p off).1.offset.toNat := by
  rw [writeAtCall]
  by_cases he : off ≠ st.offset
  · rw [if_pos he]
    exact ⟨hoff, hrec⟩
  · rw [if_neg he]
    push_neg at he
    subst he
    simp only []
    set n := min (accept p) p.length with hn
    have hn_le : n ≤ p.length := by rw [hn]; exact Nat.min_le_right _ _
    constructor
    · omega
    · have htoNat : (st.offset + (n : Int)).toNat = st.offset.toNat + n := by omega
      rw [htoNat, List.take_add, ← hrec]
      congr 1
      conv_lhs => rw [hp]
      exact take_slice_take _ _ _ hn_le

theorem runWriteAt_invariant (accept : List Nat → Nat) (obj : List Nat)
    (calls : List (Int × Nat)) :
    ∀ st, 0 ≤ st.offset → st.received = obj.take st.offset.toNat →
      0 ≤ (runWriteAt accept obj calls st).offset
      ∧ (runWriteAt accept obj calls st).received
        = obj.take (runWriteAt accept obj calls st).offset.toNat := by
  induction calls with
  | nil => intro st h1 h2; exact ⟨h1, h2⟩
  | cons c rest ih =>
    intro st h1 h2
    obtain ⟨off, len⟩ := c
    rw [runWriteAt]
    have hcall := writeAtCall_invariant accept obj st ((obj.drop off.toNat).take len) off h1 h2
      (slice_eq_take_length _ _)
    exact ih _ hcall.1 hcall.2

/-- C10: every `WriteAt` call on the adapter either arrives exactly at
the tracked offset — the bytes are forwarded to the wrapped sequential
writer and the offset advances by the count the writer reports — or is
rejected with an error, forwarding nothing and leaving the state
unchanged; consequently, over any sequence of downloader calls
delivering slices of the object, the wrapped writer always holds exactly
the contiguous in-order object prefix of length equal to the tracked
offset. -/
theorem writeAtWrapper_sequential (accept : List Nat → Nat) (obj : List Nat)
    (calls : List (Int × Nat)) :
    (∀ st p off, off ≠ st.offset → writeAtCall accept st p off = (st, 0, false))
    ∧ (∀ st p off, off = st.offset →
        (writeAtCall accept st p off).1.received
          = st.received ++ p.take (writeAtCall accept st p off).2.1
        ∧ (writeAtCall accept st p off).1.offset
          = st.offset + (writeAtCall accept st p off).2.1)
    ∧ ((runWriteAt accept obj calls ⟨0, []⟩).received
        = obj.take (runWriteAt accept obj calls ⟨0, []⟩).offset.toNat
      ∧ 0 ≤ (runWriteAt accept obj calls ⟨0, []⟩).offset) := by
  refine ⟨?_, ?_, ?_, ?_⟩
  · intro st p off h
    rw [writeAtCall, if_pos h]
  · intro st p off h
    rw [writeAtCall, if_neg (by simp [h])]
    subst h
    exact ⟨rfl, rfl⟩
  · exact (runWriteAt_invariant accept obj calls ⟨0, []⟩ (by simp) (by simp)).2
  · exact (runWriteAt_invariant accept obj calls ⟨0, []⟩ (by simp) (by simp)).1

end S3Copy
